import Mathlib

/-!
Verification of the grid/voxel aggregation engine of PELEpharmacophore.

The development embeds the two source files
`PELEpharmacophore/analysis/grid_analyzer.py` and `PELEpharmacophore/target.py`.
Coordinates are modelled as exact rationals, Python dictionaries as ordered
association lists (insertion order preserved, updates in place, new keys
appended at the end — the observable behaviour of Python 3.7+ dicts), and
fallible code as `Option`/`Except` values.

The classes `Grid`/`Voxel` live in `analysis/grid.py` and the helper
functions `frequency_dict`/`list_dict`/`neighbor_search` in `helpers.py`;
neither file is part of the sources, so those definitions are modelled from
the specification (each such definition carries a doc comment saying so).
Everything else is translated from the source files.
-/

/-- A 3-D point with exact rational coordinates. -/
abbrev Point := ℚ × ℚ × ℚ

/-- Squared Euclidean distance between two points
(`scipy.spatial.distance.cdist(..., sqeuclidean)` entry). -/
def sqdist (p q : Point) : ℚ :=
  (p.1 - q.1) ^ 2 + (p.2.1 - q.2.1) ^ 2 + (p.2.2 - q.2.2) ^ 2

/-- Componentwise `≤` on points (numpy broadcast comparison plus `.all()`). -/
def pointLE (p q : Point) : Prop :=
  p.1 ≤ q.1 ∧ p.2.1 ≤ q.2.1 ∧ p.2.2 ≤ q.2.2

instance (p q : Point) : Decidable (pointLE p q) := by
  unfold pointLE; infer_instance

/-- Association-list lookup: Python `d[k]` / `k in d` on a dict whose entries
are kept in insertion order. -/
def dictLookup {α : Type} : List (String × α) → String → Option α
  | [], _ => none
  | (k, v) :: rest, f => if k = f then some v else dictLookup rest f

/-- Modelled from the spec: `helpers.frequency_dict d f n` (helpers.py is not
in src/) adds `n` to the count stored under key `f`, creating the entry when
missing — "result frequency = sum of both (missing = 0)". Updating keeps the
key at its position; a new key goes to the end (Python dict semantics). -/
def frequency_dict : List (String × ℕ) → String → ℕ → List (String × ℕ)
  | [], f, n => [(f, n)]
  | (k, m) :: rest, f, n =>
    if k = f then (k, m + n) :: rest else (k, m) :: frequency_dict rest f n

/-- Modelled from the spec: `helpers.list_dict d f x` (helpers.py is not in
src/) appends `x` to the list stored under key `f`, creating the entry when
missing — "result origins = concatenation of both origin lists". -/
def list_dict {α : Type} : List (String × List α) → String → α → List (String × List α)
  | [], f, x => [(f, [x])]
  | (k, l) :: rest, f, x =>
    if k = f then (k, l ++ [x]) :: rest else (k, l) :: list_dict rest f x

/-- Modelled from the spec: a `Voxel` of `analysis/grid.py` (not in src/):
a fixed center, a per-feature occurrence count `freq_dict` and a per-feature
list of provenance tags `origin_dict` (tags are modelled as natural numbers). -/
structure Voxel where
  center : Point
  freq_dict : List (String × ℕ)
  origin_dict : List (String × List ℕ)
deriving DecidableEq

/-- Modelled from the spec: a `Grid` of `analysis/grid.py` (not in src/):
center, radius, resolution and the fixed enumeration of its voxels. -/
structure Grid where
  center : Point
  radius : ℚ
  resolution : ℕ
  voxels : List Voxel
deriving DecidableEq

/-- Modelled from the spec: `Grid.is_empty` (analysis/grid.py, not in src/):
a grid is empty when no voxel has recorded any feature occurrence. -/
def Grid.is_empty (g : Grid) : Bool :=
  g.voxels.all (fun v => v.freq_dict.isEmpty)

/-- Modelled from the spec: `v_min = center - (R,R,R)` (the corner `v1`). -/
def Grid.v1 (g : Grid) : Point :=
  (g.center.1 - g.radius, g.center.2.1 - g.radius, g.center.2.2 - g.radius)

/-- Modelled from the spec: `v_max = center + (R,R,R)` (the corner `v8`). -/
def Grid.v8 (g : Grid) : Point :=
  (g.center.1 + g.radius, g.center.2.1 + g.radius, g.center.2.2 + g.radius)

/-- Frequency recorded in a voxel for a feature (0 when absent). -/
def Voxel.freqAt (v : Voxel) (f : String) : ℕ :=
  (dictLookup v.freq_dict f).getD 0

/-- Provenance list recorded in a voxel for a feature ([] when absent). -/
def Voxel.originsAt (v : Voxel) (f : String) : List ℕ :=
  (dictLookup v.origin_dict f).getD []

/-- Frequency of feature `f` in voxel `i` of a grid (0 out of range). -/
def Grid.freqAt (g : Grid) (i : ℕ) (f : String) : ℕ :=
  ((g.voxels.get? i).map (fun v => v.freqAt f)).getD 0

/-- Provenance list of feature `f` in voxel `i` of a grid ([] out of range). -/
def Grid.originsAt (g : Grid) (i : ℕ) (f : String) : List ℕ :=
  ((g.voxels.get? i).map (fun v => v.originsAt f)).getD []

/-- The dict invariant maintained by the aggregation code: `freq_dict` and
`origin_dict` list the same keys in the same order, every count is positive
and equals the length of the corresponding provenance list. -/
def wfAligned : List (String × ℕ) → List (String × List ℕ) → Bool
  | [], [] => true
  | (f, n) :: fs, (f', ms) :: os =>
    decide (f = f') && decide (n = ms.length) && decide (0 < n) && wfAligned fs os
  | _, _ => false

/-- Well-formed voxel: aligned dicts with duplicate-free keys (a Python dict
cannot hold a key twice). -/
def WFVoxel (v : Voxel) : Prop :=
  wfAligned v.freq_dict v.origin_dict = true ∧ (v.freq_dict.map Prod.fst).Nodup

instance (v : Voxel) : Decidable (WFVoxel v) := by
  unfold WFVoxel; infer_instance

/-- Well-formed grid: every voxel is well-formed. -/
def WFGrid (g : Grid) : Prop :=
  ∀ v ∈ g.voxels, WFVoxel v

instance (g : Grid) : Decidable (WFGrid g) := by
  unfold WFGrid; infer_instance

/-- Two grids were built from the same parameters and hence carry the same
lattice: same center, radius, resolution and voxel centers. -/
def sameLattice (a b : Grid) : Prop :=
  a.center = b.center ∧ a.radius = b.radius ∧ a.resolution = b.resolution ∧
    a.voxels.map Voxel.center = b.voxels.map Voxel.center

instance (a b : Grid) : Decidable (sameLattice a b) := by
  unfold sameLattice; infer_instance

/-- The inner loop of `GridAnalyzer.merge_grids` for one voxel pair: for each
`(feature, other_freq)` item of the incoming voxel's `freq_dict`, add the
count into `voxel.freq_dict` and append each entry of
`other_voxel.origin_dict[feature]` to `voxel.origin_dict`. The subscript
`other_voxel.origin_dict[feature]` raises `KeyError` (modelled as `none`)
when the feature is missing there. -/
def mergeFeats : List (String × ℕ) → List (String × List ℕ) → Voxel → Option Voxel
  | [], _, v => some v
  | (f, n) :: rest, ood, v =>
    match dictLookup ood f with
    | none => none
    | some ms =>
      mergeFeats rest ood
        { v with
          freq_dict := frequency_dict v.freq_dict f n,
          origin_dict := ms.foldl (fun od m => list_dict od f m) v.origin_dict }

/-- Merge the incoming voxel `ov` into `v` (body of the `for i, other_voxel`
loop of `GridAnalyzer.merge_grids`; the `if other_voxel.freq_dict:` guard is
the identity for an empty dict). -/
def mergeVoxel (v ov : Voxel) : Option Voxel :=
  mergeFeats ov.freq_dict ov.origin_dict v

/-- Pair up `grid.voxels[i]` with `other_grid.voxels[i]` for every index of
`other_grid.voxels`; `grid.voxels[i]` raises `IndexError` (modelled as
`none`) when `other_grid` has more voxels; trailing voxels of `grid` are
kept unchanged. -/
def mergeVoxelLists : List Voxel → List Voxel → Option (List Voxel)
  | vs, [] => some vs
  | [], _ :: _ => none
  | v :: vs, ov :: ovs =>
    match mergeVoxel v ov, mergeVoxelLists vs ovs with
    | some v', some vs' => some (v' :: vs')
    | _, _ => none

/-- `GridAnalyzer.merge_grids(grid, other_grid)`: when `grid` is empty the
result is a deep copy of `other_grid` (a value in this embedding); otherwise
the voxels of `other_grid` are folded index-wise into `grid`, which is
returned. No compatibility check of any kind is performed. -/
def merge_grids (grid other_grid : Grid) : Option Grid :=
  if grid.is_empty then some other_grid
  else
    match mergeVoxelLists grid.voxels other_grid.voxels with
    | some vs => some { grid with voxels := vs }
    | none => none

/-- Minimum of `a` and the elements of a list (running minimum of a fold). -/
def minFrom (a : ℚ) : List ℚ → ℚ
  | [] => a
  | d :: ds => minFrom (min a d) ds

/-- Maximum of `a` and the elements of a list. -/
def maxFrom (a : ℚ) : List ℚ → ℚ
  | [] => a
  | d :: ds => maxFrom (max a d) ds

/-- Minimum value of a list (0 for an empty list; only used on nonempty ones). -/
def minOf : List ℚ → ℚ
  | [] => 0
  | d :: ds => minFrom d ds

/-- `numpy.argmin`: index of the first occurrence of the minimum value
(0 for an empty list; the callers guard against that case). -/
def argminList : List ℚ → ℕ
  | [] => 0
  | d :: ds => if d ≤ minFrom d ds then 0 else argminList ds + 1

/-- `GridAnalyzer.check_voxels(coords)`: squared-Euclidean distances from
every coordinate to every voxel center of (a deep copy of) the grid, then
`argmin` along each row. `numpy.argmin` fails on a grid with no voxels
(modelled as `none`). The deep copy does not affect the result. -/
def check_voxels (g : Grid) (coords : List Point) : Option (List ℕ) :=
  if g.voxels.isEmpty then none
  else
    some (coords.map (fun p =>
      argminList ((g.voxels.map Voxel.center).map (fun c => sqdist p c))))

/-- Modelled from the spec: `helpers.neighbor_search` (helpers.py is not in
src/) returns the points lying within the given distance of the center — the
broad-phase prune. The callers use distance `sqrt(3) * radius`; to stay in ℚ
the comparison is expressed on squared distances, so the argument is the
squared search distance `3 * radius ^ 2`. -/
def neighbor_search (pts : List Point) (center : Point) (distSq : ℚ) : List Point :=
  pts.filter (fun p => sqdist p center ≤ distSq)

/-- `Target.get_grid_atoms` (target.py), coordinate-level core: broad-phase
`neighbor_search` within `sqrt(3) * radius` of the grid center, then the
exact box test `v1 ≤ coord` and `coord ≤ v8` componentwise. -/
def target_get_grid_atoms (g : Grid) (atoms : List Point) : List Point :=
  (neighbor_search atoms g.center (3 * g.radius ^ 2)).filter
    (fun p => decide (pointLE (Grid.v1 g) p) && decide (pointLE p (Grid.v8 g)))

/-- `GridAnalyzer.get_grid_atoms(coords)` (grid_analyzer.py, lines 44-48):
the body reads the names `coordinates` (the parameter is called `coords`)
and `a`, neither of which is defined anywhere, so the very first statement
executed, `hl.neighbor_search(coordinates, ...)`, raises `NameError` on
every call before any point is processed. -/
def ga_get_grid_atoms (_g : Grid) (_coords : List Point) : Except String (List Point) :=
  Except.error "NameError: name coordinates is not defined"

/-- Loop of `GridAnalyzer.analyze_trajectory` over the accepted steps:
`trajectory[step]` raises `IndexError` out of range, then
`self.get_grid_atoms(model)` raises `NameError` (see `ga_get_grid_atoms`),
aborting the loop. The rest of the body (the truthiness test on the numpy
index array returned by `check_voxels` and the `merge_grids` call on it) is
unreachable. -/
def analyzeSteps (tmpl traj_grid : Grid) (trajectory : List (List Point)) :
    List ℕ → Except String Grid
  | [] => Except.ok traj_grid
  | step :: rest =>
    match trajectory.get? step with
    | none => Except.error "IndexError: list index out of range"
    | some model =>
      match ga_get_grid_atoms tmpl model with
      | Except.error e => Except.error e
      | Except.ok _ => analyzeSteps tmpl traj_grid trajectory rest

/-- `GridAnalyzer.analyze_trajectory`: deep-copy the template grid
(`traj_grid = copy.deepcopy(self.grid)`, a plain value here) and fold the
accepted steps into it. -/
def analyze_trajectory (template : Grid) (trajectory : List (List Point))
    (accepted_steps : List ℕ) : Except String Grid :=
  analyzeSteps template template trajectory accepted_steps

/-- A heap of grid objects: object identity is an index into the list. Used
to state the aliasing/mutation behaviour of `merge_grids`, whose Python body
mutates its first argument in place and allocates only in the deep-copy
branch. -/
def merge_grids_heap (h : List Grid) (a b : ℕ) : Option (List Grid × ℕ) :=
  match h.get? a, h.get? b with
  | some ga, some gb =>
    if ga.is_empty then some (h ++ [gb], h.length)
    else
      match mergeVoxelLists ga.voxels gb.voxels with
      | some vs => some (h.set a { ga with voxels := vs }, a)
      | none => none
  | _, _ => none

/-- `freq_dict_all` accumulation of `GridAnalyzer.set_frequency_filter`: for
every voxel (in grid order) and every `(feature, freq)` item of its
`freq_dict`, append `freq` to the per-feature list. -/
def buildFreqDictAll (vs : List Voxel) : List (String × List ℕ) :=
  vs.foldl (fun acc v => v.freq_dict.foldl (fun acc2 p => list_dict acc2 p.1 p.2) acc) []

/-- Range used by `numpy.histogram` with default arguments: `(min, max)` of
the data, widened to `(min - 0.5, max + 0.5)` when all values coincide, and
`(0, 1)` for empty data. -/
def histRange (l : List ℕ) : ℚ × ℚ :=
  match l with
  | [] => (0, 1)
  | d :: ds =>
    let lo := minFrom (d : ℚ) (ds.map (fun n => (n : ℚ)))
    let hi := maxFrom (d : ℚ) (ds.map (fun n => (n : ℚ)))
    if lo = hi then (lo - 1 / 2, hi + 1 / 2) else (lo, hi)

/-- The 11 bin edges of `numpy.histogram(l)` (10 equal-width bins over
`histRange`): edge `k` is `lo + k * (hi - lo) / 10`. -/
def histEdges (l : List ℕ) : List ℚ :=
  (List.range 11).map
    (fun (k : ℕ) => (histRange l).1 + (k : ℚ) * (((histRange l).2 - (histRange l).1) / 10))

/-- Python list indexing `l[i]`: negative indices count from the end; out of
range raises `IndexError` (modelled as `none`). -/
def pyIndex {α : Type} (l : List α) (i : ℤ) : Option α :=
  if 0 ≤ i then l.get? i.toNat
  else if -(l.length : ℤ) ≤ i then l.get? (i + l.length).toNat
  else none

/-- Run an option-valued function over a list, failing at the first `none`
(the iteration order of the Python `for` loop, which stops at the first
exception). -/
def optionMapAll {α β : Type} : List α → (α → Option β) → Option (List β)
  | [], _ => some []
  | x :: xs, f =>
    match f x, optionMapAll xs f with
    | some y, some ys => some (y :: ys)
    | _, _ => none

/-- `GridAnalyzer.set_frequency_filter(threshold)`: build `freq_dict_all`,
then for each feature take `numpy.histogram` bin edge number `threshold`
(plain Python indexing into the 11-element edge array — there is no range
check and no dedicated error) as that feature's cutoff. -/
def set_frequency_filter (g : Grid) (threshold : ℤ) : Option (List (String × ℚ)) :=
  optionMapAll (buildFreqDictAll g.voxels)
    (fun p => (pyIndex (histEdges p.2) threshold).map (fun e => (p.1, e)))

/-- Number of voxels that `GridAnalyzer.save_pharmacophores` would emit for
feature `f` under cutoff `c`: those whose `freq_dict` holds `f` with
frequency `≥ c`. -/
def countSurvivors (g : Grid) (f : String) (c : ℚ) : ℕ :=
  g.voxels.countP (fun v =>
    match (dictLookup v.freq_dict f : Option ℕ) with
    | some n => decide (c ≤ (n : ℚ))
    | none => false)

/-- Decimal digit character for a value below 10. -/
def digitChar10 (d : ℕ) : Char := Char.ofNat (48 + d)

/-- Decimal digits of a natural number, most significant first (fuel-driven
recursion; the fuel `n + 1` always suffices). -/
def natDigitsAux : ℕ → ℕ → List Char
  | 0, _ => []
  | fuel + 1, n =>
    if n < 10 then [digitChar10 n]
    else natDigitsAux fuel (n / 10) ++ [digitChar10 (n % 10)]

/-- Decimal representation of a natural number. -/
def natRepr (n : ℕ) : String := String.mk (natDigitsAux (n + 1) n)

/-- Left-pad a string with `c` up to width `w` (no-op when already wider). -/
def padLeftC (c : Char) (s : String) (w : ℕ) : String :=
  String.mk (List.replicate (w - s.length) c) ++ s

/-- Right-pad a string with spaces up to width `w` (Python `{s:<w}`, the
default string alignment). -/
def padRightS (s : String) (w : ℕ) : String :=
  s ++ String.mk (List.replicate (w - s.length) ' ')

/-- Python fixed-point formatting `{q:.precf}` of a rational: the value
scaled by `10 ^ prec` and rounded to an integer, printed with exactly
`prec` fractional digits. All values formatted in this development are
exact multiples of `10 ^ (-prec)`, where every rounding convention
coincides. -/
def formatFixed (q : ℚ) (prec : ℕ) : String :=
  let n : ℤ := round (q * (10 : ℚ) ^ prec)
  let sign := if n < 0 then "-" else ""
  let m := n.natAbs
  sign ++ natRepr (m / 10 ^ prec) ++ "." ++ padLeftC '0' (natRepr (m % 10 ^ prec)) prec

/-- `format_line_pdb` (target.py, lines 113-118) with its default keyword
arguments: the f-string
`ATOM` (left in 5) + atomnum right in 5 + blank + atomname left in 4 +
blank + resname left in 3 + blank + chain + resnum right in 4 + 4 blanks +
x, y, z right in 8 with 3 decimals + occupancy and bfactor right in 6 with
2 decimals + element (first character of the atom name) right in 12 +
newline. -/
def format_line_pdb (coords : Point) (atomname : String) (bfact : ℚ) : String :=
  let element := String.mk [atomname.toList.headD ' ']
  padRightS "ATOM" 5 ++ padLeftC ' ' "1" 5 ++ " " ++ padRightS atomname 4 ++ " " ++
    padRightS "UNK" 3 ++ " " ++ "A" ++ padLeftC ' ' "1" 4 ++ "    " ++
    padLeftC ' ' (formatFixed coords.1 3) 8 ++
    padLeftC ' ' (formatFixed coords.2.1 3) 8 ++
    padLeftC ' ' (formatFixed coords.2.2 3) 8 ++
    padLeftC ' ' (formatFixed 1 2) 6 ++
    padLeftC ' ' (formatFixed bfact 2) 6 ++
    padLeftC ' ' element 12 ++ "\n"

/-- The characters of a line between 0-based column offsets `a` (inclusive)
and `b` (exclusive). -/
def sliceChars (cs : List Char) (a b : Nat) : List Char :=
  (cs.take b).drop a

/-- Strip leading and trailing spaces. -/
def trimSpaces (cs : List Char) : List Char :=
  ((cs.dropWhile (fun c => c = ' ')).reverse.dropWhile (fun c => c = ' ')).reverse

/-- Parse a nonempty all-digit character list as a natural number. -/
def digitsToNat (cs : List Char) : Option ℕ :=
  match cs with
  | [] => none
  | _ =>
    cs.foldl
      (fun acc c =>
        acc.bind (fun n => if c.isDigit then some (n * 10 + (c.toNat - 48)) else none))
      (some 0)

/-- Parse a fixed-column numeric field: surrounding blanks, an optional
minus sign, an integer part and an optional fractional part, giving the
exact rational value. -/
def parseFixed (cs : List Char) : Option ℚ :=
  let cs := trimSpaces cs
  let (neg, cs) :=
    match cs with
    | '-' :: rest => (true, rest)
    | _ => (false, cs)
  let ip := cs.takeWhile (fun c => c ≠ '.')
  let rest := cs.dropWhile (fun c => c ≠ '.')
  let mag : Option ℚ :=
    match rest with
    | [] => (digitsToNat ip).map (fun n => (n : ℚ))
    | _ :: fr =>
      (digitsToNat ip).bind (fun n =>
        (digitsToNat fr).map (fun m => (n : ℚ) + (m : ℚ) / (10 : ℚ) ^ fr.length))
  mag.map (fun q => if neg then -q else q)

/-- The all-empty grid over the lattice of `g`: same parameters and voxel
centers, no recorded features (the merge identity described by the spec). -/
def emptyOver (g : Grid) : Grid :=
  { g with voxels := g.voxels.map (fun v => { center := v.center, freq_dict := [], origin_dict := [] }) }

/-- Concrete example grid over the unit lattice (one voxel), feature A once. -/
def exGridA : Grid :=
  ⟨(0, 0, 0), 1, 1, [⟨(0, 0, 0), [("A", 1)], [("A", [1])]⟩]⟩

/-- Concrete example grid over the same lattice as `exGridA`, features A and B. -/
def exGridB : Grid :=
  ⟨(0, 0, 0), 1, 1, [⟨(0, 0, 0), [("A", 2), ("B", 1)], [("A", [2, 3]), ("B", [4])]⟩]⟩

/-- Concrete example grid over the same lattice as `exGridA`, feature B once. -/
def exGridC : Grid :=
  ⟨(0, 0, 0), 1, 1, [⟨(0, 0, 0), [("B", 1)], [("B", [5])]⟩]⟩

/-- A grid built from different parameters (radius 2 instead of 1). -/
def exGridIncompatible : Grid :=
  ⟨(0, 0, 0), 2, 1, [⟨(0, 0, 0), [("B", 1)], [("B", [9])]⟩]⟩

/-- Two-voxel grid whose second voxel center ties with the first for the
point `(0, 0, 1)`. -/
def exGridTie : Grid :=
  ⟨(0, 0, 1), 1, 2, [⟨(0, 0, 0), [], []⟩, ⟨(0, 0, 2), [], []⟩]⟩

/-- One-voxel grid with a single recorded frequency 3 for feature A. -/
def exGridHist : Grid :=
  ⟨(0, 0, 0), 1, 1, [⟨(0, 0, 0), [("A", 3)], [("A", [1, 2, 3])]⟩]⟩

/-- Two-voxel grid with frequencies 1 and 11 for feature A (histogram range
1..11, so bin edge k is `1 + k`). -/
def exGridHist2 : Grid :=
  ⟨(0, 0, 0), 1, 2,
    [⟨(0, 0, 0), [("A", 1)], [("A", [1])]⟩,
     ⟨(0, 0, 1), [("A", 11)], [("A", [1, 2, 3, 4, 5, 6, 7, 8, 9, 10, 11])]⟩]⟩

/-! Section: Association-list lemmas -/

theorem dictLookup_frequency_dict (d : List (String × ℕ)) (f f' : String) (n : ℕ) :
    dictLookup (frequency_dict d f n) f' =
      if f' = f then some ((dictLookup d f).getD 0 + n) else dictLookup d f' := by
  induction d with
  | nil =>
    by_cases h : f' = f
    · subst h; simp [frequency_dict, dictLookup]
    · have h2 : ¬f = f' := fun hh => h hh.symm
      simp [frequency_dict, dictLookup, h, h2]
  | cons kv rest ih =>
    obtain ⟨k, m⟩ := kv
    by_cases hkf : k = f
    · subst hkf
      by_cases h : f' = k
      · subst h; simp [frequency_dict, dictLookup]
      · have h2 : ¬k = f' := fun hh => h hh.symm
        simp [frequency_dict, dictLookup, h, h2]
    · by_cases hk' : k = f'
      · subst hk'
        simp [frequency_dict, dictLookup, hkf]
      · simp [frequency_dict, dictLookup, hkf, hk', ih]

theorem dictLookup_list_dict {α : Type} (d : List (String × List α)) (f f' : String) (x : α) :
    dictLookup (list_dict d f x) f' =
      if f' = f then some ((dictLookup d f).getD [] ++ [x]) else dictLookup d f' := by
  induction d with
  | nil =>
    by_cases h : f' = f
    · subst h; simp [list_dict, dictLookup]
    · have h2 : ¬f = f' := fun hh => h hh.symm
      simp [list_dict, dictLookup, h, h2]
  | cons kv rest ih =>
    obtain ⟨k, l⟩ := kv
    by_cases hkf : k = f
    · subst hkf
      by_cases h : f' = k
      · subst h; simp [list_dict, dictLookup]
      · have h2 : ¬k = f' := fun hh => h hh.symm
        simp [list_dict, dictLookup, h, h2]
    · by_cases hk' : k = f'
      · subst hk'
        simp [list_dict, dictLookup, hkf]
      · simp [list_dict, dictLookup, hkf, hk', ih]

/-- Appending a batch of entries under one key, head preserved when the key
differs. -/
theorem foldl_list_dict_cons_ne {α : Type} (ms : List α) (k f : String) (l : List α)
    (od : List (String × List α)) (hk : ¬k = f) :
    ms.foldl (fun od m => list_dict od f m) ((k, l) :: od) =
      (k, l) :: ms.foldl (fun od m => list_dict od f m) od := by
  induction ms generalizing od with
  | nil => rfl
  | cons m ms ih => simp [list_dict, hk, ih]

/-- Appending a batch of entries under the key at the head. -/
theorem foldl_list_dict_cons_eq {α : Type} (ms : List α) (f : String) (l : List α)
    (od : List (String × List α)) :
    ms.foldl (fun od m => list_dict od f m) ((f, l) :: od) = (f, l ++ ms) :: od := by
  induction ms generalizing l with
  | nil => simp
  | cons m ms ih => simp [list_dict, ih]

/-- Appending a batch of entries into an empty dict. -/
theorem foldl_list_dict_nil {α : Type} (ms : List α) (f : String) :
    ms.foldl (fun od m => list_dict od f m) [] =
      if ms.isEmpty then [] else [(f, ms)] := by
  cases ms with
  | nil => rfl
  | cons m ms => simp [list_dict, foldl_list_dict_cons_eq]

theorem getD_dictLookup_foldl_list_dict {α : Type} (ms : List α)
    (d : List (String × List α)) (f f' : String) :
    (dictLookup (ms.foldl (fun od m => list_dict od f m) d) f').getD [] =
      if f' = f then (dictLookup d f).getD [] ++ ms else (dictLookup d f').getD [] := by
  induction d with
  | nil =>
    rw [foldl_list_dict_nil]
    cases ms with
    | nil => by_cases h : f' = f <;> simp [dictLookup, h]
    | cons m ms =>
      by_cases h : f' = f
      · subst h; simp [dictLookup]
      · have h2 : ¬f = f' := fun hh => h hh.symm
        simp [dictLookup, h, h2]
  | cons kv rest ih =>
    obtain ⟨k, l⟩ := kv
    by_cases hkf : k = f
    · subst hkf
      rw [foldl_list_dict_cons_eq]
      by_cases h : f' = k
      · subst h; simp [dictLookup]
      · have h2 : ¬k = f' := fun hh => h hh.symm
        simp [dictLookup, h, h2]
    · rw [foldl_list_dict_cons_ne _ _ _ _ _ hkf]
      by_cases hk' : k = f'
      · subst hk'
        simp [dictLookup, hkf]
      · simp [dictLookup, hkf, hk', ih]

theorem dictLookup_eq_none_of_not_mem_keys {α : Type} (d : List (String × α)) (f : String)
    (h : f ∉ d.map Prod.fst) : dictLookup d f = none := by
  induction d with
  | nil => rfl
  | cons kv rest ih =>
    obtain ⟨k, v⟩ := kv
    simp only [List.map_cons, List.mem_cons] at h
    push_neg at h
    have hk : ¬k = f := fun hh => h.1 hh.symm
    simp [dictLookup, hk, ih h.2]

theorem mem_keys_of_dictLookup {α : Type} (d : List (String × α)) (f : String) (v : α)
    (h : dictLookup d f = some v) : f ∈ d.map Prod.fst := by
  induction d with
  | nil => simp [dictLookup] at h
  | cons kv rest ih =>
    obtain ⟨k, w⟩ := kv
    by_cases hk : k = f
    · simp [hk]
    · simp only [dictLookup, if_neg hk] at h
      simpa using Or.inr (ih h)

theorem map_fst_frequency_dict (d : List (String × ℕ)) (f : String) (n : ℕ) :
    (frequency_dict d f n).map Prod.fst =
      if f ∈ d.map Prod.fst then d.map Prod.fst else d.map Prod.fst ++ [f] := by
  induction d with
  | nil => simp [frequency_dict]
  | cons kv rest ih =>
    obtain ⟨k, m⟩ := kv
    by_cases hk : k = f
    · subst hk; simp [frequency_dict]
    · by_cases hm : f ∈ rest.map Prod.fst <;>
        simp [frequency_dict, hk, Ne.symm hk, ih, hm]

/-! Section: Well-formedness lemmas -/

theorem wfAligned_keys (fd : List (String × ℕ)) (od : List (String × List ℕ))
    (h : wfAligned fd od = true) : fd.map Prod.fst = od.map Prod.fst := by
  induction fd generalizing od with
  | nil => cases od with
    | nil => rfl
    | cons o os => simp [wfAligned] at h
  | cons p fd' ih =>
    obtain ⟨f, n⟩ := p
    cases od with
    | nil => simp [wfAligned] at h
    | cons o os =>
      obtain ⟨f', ms⟩ := o
      simp only [wfAligned, Bool.and_eq_true, decide_eq_true_eq] at h
      simp [h.1.1.1, ih os h.2]

theorem wfAligned_lookup (fd : List (String × ℕ)) (od : List (String × List ℕ))
    (f : String) (n : ℕ) (h : wfAligned fd od = true) (hf : dictLookup fd f = some n) :
    ∃ ms, dictLookup od f = some ms ∧ ms.length = n ∧ 0 < n := by
  induction fd generalizing od with
  | nil => simp [dictLookup] at hf
  | cons p fd' ih =>
    obtain ⟨k, m⟩ := p
    cases od with
    | nil => simp [wfAligned] at h
    | cons o os =>
      obtain ⟨k', ms⟩ := o
      simp only [wfAligned, Bool.and_eq_true, decide_eq_true_eq] at h
      obtain ⟨⟨⟨hk, hm⟩, hp⟩, hrest⟩ := h
      subst hk
      by_cases hkf : k = f
      · simp only [dictLookup, if_pos hkf, Option.some.injEq] at hf ⊢
        exact ⟨ms, rfl, by omega, by omega⟩
      · simp only [dictLookup, if_neg hkf] at hf ⊢
        exact ih os hrest hf

theorem dictLookup_eq_none_iff {α : Type} (d : List (String × α)) (f : String) :
    dictLookup d f = none ↔ f ∉ d.map Prod.fst := by
  induction d with
  | nil => simp [dictLookup]
  | cons p rest ih =>
    obtain ⟨k, v⟩ := p
    by_cases hk : k = f
    · subst hk; simp [dictLookup]
    · have hk' : ¬f = k := fun hh => hk hh.symm
      simp [dictLookup, hk, hk', ih]

theorem dictLookup_of_mem_of_nodup {α : Type} (d : List (String × α)) (f : String) (n : α)
    (hnd : (d.map Prod.fst).Nodup) (hmem : (f, n) ∈ d) : dictLookup d f = some n := by
  induction d with
  | nil => simp at hmem
  | cons p rest ih =>
    obtain ⟨k, m⟩ := p
    simp only [List.map_cons, List.nodup_cons] at hnd
    rcases List.mem_cons.mp hmem with heq | hmem'
    · obtain ⟨h1, h2⟩ := Prod.mk.inj heq.symm
      subst h1; subst h2
      simp [dictLookup]
    · have hfk : ¬k = f := by
        intro hkf
        subst hkf
        exact hnd.1 (List.mem_map_of_mem Prod.fst hmem')
      simp [dictLookup, hfk, ih hnd.2 hmem']

theorem WFVoxel.lookup_origin {v : Voxel} (hv : WFVoxel v) (f : String) (n : ℕ)
    (hf : dictLookup v.freq_dict f = some n) :
    ∃ ms, dictLookup v.origin_dict f = some ms ∧ ms.length = n ∧ 0 < n :=
  wfAligned_lookup _ _ _ _ hv.1 hf

theorem WFVoxel.mem_lookup {v : Voxel} (hv : WFVoxel v) (f : String) (n : ℕ)
    (hmem : (f, n) ∈ v.freq_dict) : dictLookup v.freq_dict f = some n :=
  dictLookup_of_mem_of_nodup _ _ _ hv.2 hmem

theorem WFVoxel.origin_none {v : Voxel} (hv : WFVoxel v) (f : String)
    (hf : dictLookup v.freq_dict f = none) : dictLookup v.origin_dict f = none := by
  rw [dictLookup_eq_none_iff] at hf ⊢
  rw [← wfAligned_keys _ _ hv.1]
  exact hf

/-! Section: Voxel merge lemmas -/

theorem mergeFeats_spec (fd : List (String × ℕ)) (ood : List (String × List ℕ)) (v : Voxel)
    (hnd : (fd.map Prod.fst).Nodup)
    (hood : ∀ f n, (f, n) ∈ fd → (dictLookup ood f).isSome) :
    ∃ v', mergeFeats fd ood v = some v' ∧ v'.center = v.center ∧
      (∀ f, v'.freqAt f = v.freqAt f + (dictLookup fd f).getD 0) ∧
      (∀ f, v'.originsAt f =
        v.originsAt f ++
          (if (dictLookup fd f).isSome then (dictLookup ood f).getD [] else [])) := by
  induction fd generalizing v with
  | nil =>
    refine ⟨v, rfl, rfl, ?_, ?_⟩ <;> intro f <;> simp [dictLookup]
  | cons p rest ih =>
    obtain ⟨f0, n0⟩ := p
    have hs : (dictLookup ood f0).isSome := hood f0 n0 (List.mem_cons_self _ _)
    obtain ⟨ms, hms⟩ := Option.isSome_iff_exists.mp hs
    simp only [List.map_cons, List.nodup_cons] at hnd
    obtain ⟨v', hv', hc, hfreq, horig⟩ :=
      ih { v with
            freq_dict := frequency_dict v.freq_dict f0 n0,
            origin_dict := ms.foldl (fun od m => list_dict od f0 m) v.origin_dict }
        hnd.2 (fun f n hmem => hood f n (List.mem_cons_of_mem _ hmem))
    refine ⟨v', ?_, hc, ?_, ?_⟩
    · simp only [mergeFeats, hms]
      exact hv'
    · intro f
      by_cases hf : f = f0
      · subst hf
        have hnone : dictLookup rest f = none :=
          dictLookup_eq_none_of_not_mem_keys _ _ hnd.1
        rw [hfreq f]
        simp [Voxel.freqAt, dictLookup_frequency_dict, dictLookup, hnone]
      · have hf' : ¬f0 = f := fun hh => hf hh.symm
        rw [hfreq f]
        simp [Voxel.freqAt, dictLookup_frequency_dict, dictLookup, hf, hf']
    · intro f
      by_cases hf : f = f0
      · subst hf
        have hnone : dictLookup rest f = none :=
          dictLookup_eq_none_of_not_mem_keys _ _ hnd.1
        rw [horig f]
        simp [Voxel.originsAt, getD_dictLookup_foldl_list_dict, dictLookup, hnone, hms]
      · have hf' : ¬f0 = f := fun hh => hf hh.symm
        rw [horig f]
        simp [Voxel.originsAt, getD_dictLookup_foldl_list_dict, dictLookup, hf, hf']

theorem wfAligned_update (fd : List (String × ℕ)) (od : List (String × List ℕ))
    (f : String) (n : ℕ) (ms : List ℕ) (h : wfAligned fd od = true)
    (hms : ms.length = n) (hpos : 0 < n) :
    wfAligned (frequency_dict fd f n) (ms.foldl (fun od m => list_dict od f m) od) = true := by
  induction fd generalizing od with
  | nil =>
    cases od with
    | nil =>
      have hne : ¬ms.isEmpty := by
        cases ms with
        | nil => simp at hms; omega
        | cons m ms => simp
      rw [foldl_list_dict_nil]
      simp only [Bool.not_eq_true] at hne
      rw [hne]
      simp [frequency_dict, wfAligned, hms, hpos]
    | cons o os => simp [wfAligned] at h
  | cons p fd' ih =>
    obtain ⟨k, m⟩ := p
    cases od with
    | nil => simp [wfAligned] at h
    | cons o os =>
      obtain ⟨k', xs⟩ := o
      simp only [wfAligned, Bool.and_eq_true, decide_eq_true_eq] at h
      obtain ⟨⟨⟨hk, hm⟩, hp⟩, hrest⟩ := h
      subst hk
      by_cases hkf : k = f
      · subst hkf
        rw [foldl_list_dict_cons_eq]
        simp [frequency_dict, wfAligned, hrest, hms, hm]
        omega
      · have hx : 0 < xs.length := hm ▸ hp
        rw [foldl_list_dict_cons_ne _ _ _ _ _ hkf]
        simp [frequency_dict, hkf, wfAligned, hm, hp, hx, ih os hrest]

theorem nodup_keys_frequency_dict (fd : List (String × ℕ)) (f : String) (n : ℕ)
    (h : (fd.map Prod.fst).Nodup) : ((frequency_dict fd f n).map Prod.fst).Nodup := by
  rw [map_fst_frequency_dict]
  by_cases hm : f ∈ fd.map Prod.fst
  · simpa [hm] using h
  · rw [if_neg hm]
    simp [List.nodup_append, h, hm]

theorem mergeFeats_wf (fd : List (String × ℕ)) (ood : List (String × List ℕ))
    (v v' : Voxel) (hv : WFVoxel v)
    (hood : ∀ f n, (f, n) ∈ fd → ∃ ms, dictLookup ood f = some ms ∧ ms.length = n ∧ 0 < n)
    (h : mergeFeats fd ood v = some v') : WFVoxel v' := by
  induction fd generalizing v with
  | nil =>
    obtain rfl : v = v' := by simpa [mergeFeats] using h
    exact hv
  | cons p rest ih =>
    obtain ⟨f0, n0⟩ := p
    obtain ⟨ms, hms, hlen, hpos⟩ := hood f0 n0 (List.mem_cons_self _ _)
    simp only [mergeFeats, hms] at h
    refine ih _ ?_ (fun f n hmem => hood f n (List.mem_cons_of_mem _ hmem)) h
    exact ⟨wfAligned_update _ _ _ _ _ hv.1 hlen hpos,
      nodup_keys_frequency_dict _ _ _ hv.2⟩

/-- Full specification of one voxel merge: it succeeds for a well-formed
incoming voxel, keeps the center, adds the frequencies, concatenates the
provenance lists (base entries first) and preserves well-formedness. -/
theorem mergeVoxel_spec (v ov : Voxel) (hov : WFVoxel ov) :
    ∃ v', mergeVoxel v ov = some v' ∧ v'.center = v.center ∧
      (∀ f, v'.freqAt f = v.freqAt f + ov.freqAt f) ∧
      (∀ f, v'.originsAt f = v.originsAt f ++ ov.originsAt f) ∧
      (WFVoxel v → WFVoxel v') := by
  obtain ⟨v', hv', hc, hfreq, horig⟩ :=
    mergeFeats_spec ov.freq_dict ov.origin_dict v hov.2
      (fun f n hmem => by
        obtain ⟨ms, hms, _, _⟩ := hov.lookup_origin f n (hov.mem_lookup f n hmem)
        simp [hms])
  refine ⟨v', hv', hc, hfreq, ?_, ?_⟩
  · intro f
    rw [horig f]
    rcases hh : dictLookup ov.freq_dict f with _ | n
    · rw [hov.origin_none f hh]
      simp [Voxel.originsAt, hov.origin_none f hh]
    · simp [hh, Voxel.originsAt]
  · intro hv
    exact mergeFeats_wf _ _ _ _ hv
      (fun f n hmem => hov.lookup_origin f n (hov.mem_lookup f n hmem)) hv'

/-! Section: Grid merge lemmas -/

theorem is_empty_freq_dict (g : Grid) (hg : g.is_empty = true) (v : Voxel)
    (hv : v ∈ g.voxels) : v.freq_dict = [] := by
  rw [Grid.is_empty, List.all_eq_true] at hg
  have := hg v hv
  simpa [List.isEmpty_iff] using this

theorem is_empty_freqAt (g : Grid) (hg : g.is_empty = true) (i : ℕ) (f : String) :
    g.freqAt i f = 0 := by
  rw [Grid.freqAt]
  rcases hh : g.voxels.get? i with _ | v
  · rfl
  · have hv : v ∈ g.voxels := List.get?_mem hh
    simp [Voxel.freqAt, is_empty_freq_dict g hg v hv, dictLookup]

theorem is_empty_originsAt (g : Grid) (hg : g.is_empty = true) (hwf : WFGrid g)
    (i : ℕ) (f : String) : g.originsAt i f = [] := by
  rw [Grid.originsAt]
  rcases hh : g.voxels.get? i with _ | v
  · rfl
  · have hv : v ∈ g.voxels := List.get?_mem hh
    have hnone : dictLookup v.freq_dict f = none := by
      simp [is_empty_freq_dict g hg v hv, dictLookup]
    simp [Voxel.originsAt, (hwf v hv).origin_none f hnone]

theorem mergeVoxelLists_spec (vs ovs : List Voxel) (hlen : ovs.length ≤ vs.length)
    (hov : ∀ ov ∈ ovs, WFVoxel ov) :
    ∃ vs', mergeVoxelLists vs ovs = some vs' ∧ vs'.length = vs.length ∧
      (∀ i, (vs'.get? i).map Voxel.center = (vs.get? i).map Voxel.center) ∧
      (∀ i f, ((vs'.get? i).map (fun v => v.freqAt f)).getD 0 =
        ((vs.get? i).map (fun v => v.freqAt f)).getD 0 +
          ((ovs.get? i).map (fun v => v.freqAt f)).getD 0) ∧
      (∀ i f, ((vs'.get? i).map (fun v => v.originsAt f)).getD [] =
        ((vs.get? i).map (fun v => v.originsAt f)).getD [] ++
          ((ovs.get? i).map (fun v => v.originsAt f)).getD []) ∧
      ((∀ v ∈ vs, WFVoxel v) → ∀ v' ∈ vs', WFVoxel v') := by
  induction ovs generalizing vs with
  | nil =>
    refine ⟨vs, by cases vs <;> rfl, rfl, fun i => rfl, ?_, ?_, fun h => h⟩ <;> intro i f <;> simp
  | cons ov ovs' ih =>
    cases vs with
    | nil => simp at hlen
    | cons v vs' =>
      obtain ⟨w, hw, hwc, hwf_eq, hworig, hwWF⟩ :=
        mergeVoxel_spec v ov (hov ov (List.mem_cons_self _ _))
      obtain ⟨ws, hws, hwslen, hwsc, hwsf, hwso, hwsWF⟩ :=
        ih vs' (by simpa using hlen) (fun o ho => hov o (List.mem_cons_of_mem _ ho))
      refine ⟨w :: ws, ?_, by simpa using hwslen, ?_, ?_, ?_, ?_⟩
      · simp only [mergeVoxelLists, hw, hws]
      · intro i
        cases i with
        | zero => simp [hwc]
        | succ j => simpa using hwsc j
      · intro i f
        cases i with
        | zero => simp [hwf_eq f]
        | succ j => simpa using hwsf j f
      · intro i f
        cases i with
        | zero => simp [hworig f]
        | succ j => simpa using hwso j f
      · intro hall w' hw'
        rcases List.mem_cons.mp hw' with rfl | hmem
        · exact hwWF (hall v (List.mem_cons_self _ _))
        · exact hwsWF (fun x hx => hall x (List.mem_cons_of_mem _ hx)) w' hmem

/-- Full specification of `merge_grids` on grids with the same number of
voxels (in particular grids over the same lattice): it succeeds, and the
result adds frequencies and concatenates origin lists (base grid first)
voxel by voxel; well-formedness is preserved. -/
theorem merge_grids_spec (a b : Grid) (ha : WFGrid a) (hb : WFGrid b)
    (hlen : b.voxels.length = a.voxels.length) :
    ∃ c, merge_grids a b = some c ∧ c.voxels.length = a.voxels.length ∧ WFGrid c ∧
      (∀ i f, c.freqAt i f = a.freqAt i f + b.freqAt i f) ∧
      (∀ i f, c.originsAt i f = a.originsAt i f ++ b.originsAt i f) := by
  by_cases hem : a.is_empty = true
  · refine ⟨b, by simp [merge_grids, hem], hlen, hb, ?_, ?_⟩
    · intro i f
      rw [is_empty_freqAt a hem i f]
      omega
    · intro i f
      rw [is_empty_originsAt a hem ha i f]
      simp
  · obtain ⟨vs', hvs', hlen', hc, hf, ho, hWF⟩ :=
      mergeVoxelLists_spec a.voxels b.voxels (le_of_eq hlen) (fun ov hov => hb ov hov)
    rw [Bool.not_eq_true] at hem
    refine ⟨{ a with voxels := vs' }, ?_, hlen', ?_, ?_, ?_⟩
    · simp only [merge_grids, hem, Bool.false_eq_true, if_false, hvs']
    · intro v hv
      exact hWF (fun x hx => ha x hx) v hv
    · intro i f
      simpa [Grid.freqAt] using hf i f
    · intro i f
      simpa [Grid.originsAt] using ho i f

/-! Section: Running-minimum and argmin lemmas -/

theorem minFrom_cons_min (a d : ℚ) (ds : List ℚ) :
    minFrom (min a d) ds = min a (minFrom d ds) := by
  induction ds generalizing a d with
  | nil => rfl
  | cons e es ih =>
    show minFrom (min (min a d) e) es = min a (minFrom (min d e) es)
    rw [min_assoc, ih]

theorem minFrom_le_self (a : ℚ) (ds : List ℚ) : minFrom a ds ≤ a := by
  induction ds generalizing a with
  | nil => exact le_refl a
  | cons d ds ih => exact le_trans (ih (min a d)) (min_le_left a d)

theorem minFrom_le_mem (a x : ℚ) (ds : List ℚ) (h : x ∈ ds) : minFrom a ds ≤ x := by
  induction ds generalizing a with
  | nil => simp at h
  | cons d ds ih =>
    rcases List.mem_cons.mp h with rfl | hmem
    · exact le_trans (minFrom_le_self (min a x) ds) (min_le_right a x)
    · exact ih (min a d) hmem

theorem minOf_cons (d : ℚ) (ds : List ℚ) (h : ds ≠ []) :
    minOf (d :: ds) = min d (minOf ds) := by
  cases ds with
  | nil => simp at h
  | cons e es =>
    show minFrom (min d e) es = min d (minFrom e es)
    exact minFrom_cons_min d e es

theorem minOf_le_get (l : List ℚ) (k : ℕ) (x : ℚ) (h : l.get? k = some x) :
    minOf l ≤ x := by
  cases l with
  | nil => simp at h
  | cons d ds =>
    cases k with
    | zero =>
      obtain rfl : d = x := by simpa using h
      exact minFrom_le_self d ds
    | succ j =>
      have hmem : x ∈ ds := List.get?_mem (by simpa using h)
      exact minFrom_le_mem d x ds hmem

theorem argmin_tail_lt (d : ℚ) (ds : List ℚ) (hc : ¬d ≤ minFrom d ds) :
    ds ≠ [] ∧ minOf ds < d ∧ minOf (d :: ds) = minOf ds := by
  have hds : ds ≠ [] := by
    intro h
    subst h
    exact hc (le_refl d)
  have hmin : minFrom d ds = min d (minOf ds) := by
    cases ds with
    | nil => simp at hds
    | cons e es => exact minFrom_cons_min d e es
  have hlt : minOf ds < d := by
    by_contra hge
    push_neg at hge
    exact hc (hmin ▸ le_min (le_refl d) hge)
  refine ⟨hds, hlt, ?_⟩
  have : minOf (d :: ds) = min d (minOf ds) := minOf_cons d ds hds
  rw [this, min_eq_right (le_of_lt hlt)]

theorem argminList_lt_length (l : List ℚ) (h : l ≠ []) : argminList l < l.length := by
  induction l with
  | nil => exact absurd rfl h
  | cons d ds ih =>
    by_cases hc : d ≤ minFrom d ds
    · simp [argminList, hc]
    · obtain ⟨hds, _, _⟩ := argmin_tail_lt d ds hc
      simp only [argminList, if_neg hc, List.length_cons]
      exact Nat.succ_lt_succ (ih hds)

theorem argminList_get (l : List ℚ) (h : l ≠ []) :
    l.get? (argminList l) = some (minOf l) := by
  induction l with
  | nil => exact absurd rfl h
  | cons d ds ih =>
    by_cases hc : d ≤ minFrom d ds
    · have heq : d = minFrom d ds := le_antisymm hc (minFrom_le_self d ds)
      simp only [argminList, if_pos hc, List.get?]
      exact congrArg some heq
    · obtain ⟨hds, _, hmo⟩ := argmin_tail_lt d ds hc
      simp only [argminList, if_neg hc, List.get?, hmo]
      exact ih hds

theorem argminList_first (l : List ℚ) (k : ℕ) (hk : l.get? k = some (minOf l)) :
    argminList l ≤ k := by
  induction l generalizing k with
  | nil => simp at hk
  | cons d ds ih =>
    by_cases hc : d ≤ minFrom d ds
    · simp [argminList, hc]
    · obtain ⟨hds, hlt, hmo⟩ := argmin_tail_lt d ds hc
      rw [hmo] at hk
      cases k with
      | zero =>
        obtain heq : d = minOf ds := by simpa using hk
        exact absurd heq (ne_of_gt hlt)
      | succ j =>
        simp only [argminList, if_neg hc]
        exact Nat.succ_le_succ (ih j (by simpa using hk))

/-! Section: Histogram lemmas -/

theorem maxFrom_self_le (a : ℚ) (ds : List ℚ) : a ≤ maxFrom a ds := by
  induction ds generalizing a with
  | nil => exact le_refl a
  | cons d ds ih => exact le_trans (le_max_left a d) (ih (max a d))

theorem histRange_le (l : List ℕ) : (histRange l).1 ≤ (histRange l).2 := by
  cases l with
  | nil => norm_num [histRange]
  | cons d ds =>
    simp only [histRange]
    by_cases h :
        minFrom (d : ℚ) (ds.map (fun n => (n : ℚ))) =
          maxFrom (d : ℚ) (ds.map (fun n => (n : ℚ)))
    · rw [if_pos h]
      simp only
      rw [h]
      linarith
    · rw [if_neg h]
      simp only
      exact le_trans (minFrom_le_self _ _) (maxFrom_self_le _ _)

theorem histEdges_length (l : List ℕ) : (histEdges l).length = 11 := by
  rw [histEdges, List.length_map, List.length_range]

theorem histEdges_get (l : List ℕ) (k : ℕ) (hk : k < 11) :
    (histEdges l).get? k =
      some ((histRange l).1 + k * (((histRange l).2 - (histRange l).1) / 10)) := by
  rw [histEdges, List.get?_map, List.get?_range hk]
  rfl

theorem histEdges_mono (l : List ℕ) (k : ℕ) (hk : k + 1 < 11) (ck ck1 : ℚ)
    (h1 : (histEdges l).get? k = some ck) (h2 : (histEdges l).get? (k + 1) = some ck1) :
    ck ≤ ck1 := by
  rw [histEdges_get l k (by omega)] at h1
  rw [histEdges_get l (k + 1) hk] at h2
  obtain rfl := Option.some.inj h1
  obtain rfl := Option.some.inj h2
  have hle := histRange_le l
  have hstep : 0 ≤ ((histRange l).2 - (histRange l).1) / 10 := by
    apply div_nonneg <;> linarith
  have : (k : ℚ) ≤ (k : ℚ) + 1 := by linarith
  push_cast
  nlinarith

theorem pyIndex_isSome_iff {α : Type} (l : List α) (t : ℤ) (hl : l.length = 11) :
    (pyIndex l t).isSome = true ↔ (-11 ≤ t ∧ t ≤ 10) := by
  unfold pyIndex
  by_cases h0 : 0 ≤ t
  · rw [if_pos h0, Option.isSome_iff_ne_none, Ne, List.get?_eq_none]
    omega
  · rw [if_neg h0]
    by_cases h1 : -(l.length : ℤ) ≤ t
    · rw [if_pos h1, Option.isSome_iff_ne_none, Ne, List.get?_eq_none]
      omega
    · rw [if_neg h1]
      simp only [Option.isSome_none, Bool.false_eq_true, false_iff]
      omega

theorem optionMapAll_isSome {α β : Type} (l : List α) (f : α → Option β) :
    (optionMapAll l f).isSome = true ↔ ∀ x ∈ l, (f x).isSome = true := by
  induction l with
  | nil => simp [optionMapAll]
  | cons x xs ih =>
    rcases hfx : f x with _ | y
    · simp [optionMapAll, hfx]
    · rcases hrest : optionMapAll xs f with _ | ys
      · rw [hrest] at ih
        simp only [optionMapAll, hfx, hrest]
        simp only [Option.isSome_none, Bool.false_eq_true, false_iff] at ih ⊢
        push_neg at ih
        intro hall
        obtain ⟨z, hz, hnone⟩ := ih
        exact hnone (hall z (List.mem_cons_of_mem _ hz))
      · rw [hrest] at ih
        have ihall : ∀ x ∈ xs, (f x).isSome = true := fun z hz => ih.mp rfl z hz
        simp only [optionMapAll, hfx, hrest]
        constructor
        · intro _ z hz
          rcases List.mem_cons.mp hz with rfl | hmem
          · simp [hfx]
          · exact ihall z hmem
        · intro _
          rfl

theorem countP_mono_of_imp {α : Type} (l : List α) (p q : α → Bool)
    (h : ∀ a ∈ l, p a = true → q a = true) : l.countP p ≤ l.countP q := by
  induction l with
  | nil => simp
  | cons a l ih =>
    have hrec := ih (fun x hx => h x (List.mem_cons_of_mem _ hx))
    rcases hpa : p a with _ | _
    · simp only [List.countP_cons, hpa]
      rcases hqa : q a with _ | _ <;> simp <;> omega
    · have hqa : q a = true := h a (List.mem_cons_self _ _) hpa
      simp only [List.countP_cons, hpa, hqa]
      simp
      omega

/-! Section: Claim theorems -/

theorem mergeVoxelLists_emptyOver (vs : List Voxel) :
    mergeVoxelLists vs
        (vs.map (fun v => { center := v.center, freq_dict := [], origin_dict := [] })) =
      some vs := by
  induction vs with
  | nil => rfl
  | cons v vs ih => simp [mergeVoxelLists, mergeVoxel, mergeFeats, ih]

/-- C3: merging any well-formed grid with the all-empty grid over its own
lattice returns exactly the grid itself, voxel by voxel, in both the
frequency and the origins maps. -/
theorem merge_grids_empty_right_identity (g : Grid) (hg : WFGrid g) :
    merge_grids g (emptyOver g) = some g := by
  by_cases hem : g.is_empty = true
  · rw [merge_grids, if_pos hem]
    congr 1
    have hvox : g.voxels.map
        (fun v => ({ center := v.center, freq_dict := [], origin_dict := [] } : Voxel)) =
        g.voxels := by
      have hid : ∀ v ∈ g.voxels,
          ({ center := v.center, freq_dict := [], origin_dict := [] } : Voxel) = v := by
        intro v hv
        have h1 : v.freq_dict = [] := is_empty_freq_dict g hem v hv
        have h2 : v.origin_dict = [] := by
          have hal := (hg v hv).1
          rw [h1] at hal
          cases hod : v.origin_dict with
          | nil => rfl
          | cons o os => rw [hod] at hal; simp [wfAligned] at hal
        cases v
        simp_all
      calc g.voxels.map
            (fun v => ({ center := v.center, freq_dict := [], origin_dict := [] } : Voxel))
          = g.voxels.map id := List.map_congr_left hid
        _ = g.voxels := List.map_id g.voxels
    rw [emptyOver, hvox]
  · rw [Bool.not_eq_true] at hem
    rw [merge_grids]
    rw [hem]
    simp only [Bool.false_eq_true, if_false, emptyOver, mergeVoxelLists_emptyOver]

/-- Witness for C3 at a concrete nonempty grid. -/
theorem merge_grids_empty_right_identity_witness :
    WFGrid exGridB ∧ merge_grids exGridB (emptyOver exGridB) = some exGridB :=
  ⟨by decide, merge_grids_empty_right_identity exGridB (by decide)⟩

/-- C1: over one lattice, merging is commutative and associative on the
frequency counts, and the multiset of origin entries per voxel and feature
does not depend on the merge order. -/
theorem merge_grids_comm_assoc (a b c : Grid)
    (ha : WFGrid a) (hb : WFGrid b) (hc : WFGrid c)
    (hab : sameLattice a b) (hac : sameLattice a c) :
    ∃ ab ba abc bc abc2,
      merge_grids a b = some ab ∧ merge_grids b a = some ba ∧
        merge_grids ab c = some abc ∧ merge_grids b c = some bc ∧
          merge_grids a bc = some abc2 ∧
            (∀ i f, ab.freqAt i f = ba.freqAt i f) ∧
              (∀ i f, (ab.originsAt i f : Multiset ℕ) = (ba.originsAt i f : Multiset ℕ)) ∧
                (∀ i f, abc.freqAt i f = abc2.freqAt i f) ∧
                  (∀ i f, (abc.originsAt i f : Multiset ℕ) = (abc2.originsAt i f : Multiset ℕ)) := by
  have hlab : b.voxels.length = a.voxels.length := by
    have := congrArg List.length hab.2.2.2
    simpa using this.symm
  have hlac : c.voxels.length = a.voxels.length := by
    have := congrArg List.length hac.2.2.2
    simpa using this.symm
  obtain ⟨ab, hab1, hablen, habWF, habf, habo⟩ := merge_grids_spec a b ha hb hlab
  obtain ⟨ba, hba1, hbalen, hbaWF, hbaf, hbao⟩ := merge_grids_spec b a hb ha (by omega)
  obtain ⟨abc, habc1, habclen, habcWF, habcf, habco⟩ :=
    merge_grids_spec ab c habWF hc (by omega)
  obtain ⟨bc, hbc1, hbclen, hbcWF, hbcf, hbco⟩ := merge_grids_spec b c hb hc (by omega)
  obtain ⟨abc2, habc21, habc2len, habc2WF, habc2f, habc2o⟩ :=
    merge_grids_spec a bc ha hbcWF (by omega)
  refine ⟨ab, ba, abc, bc, abc2, hab1, hba1, habc1, hbc1, habc21, ?_, ?_, ?_, ?_⟩
  · intro i f
    rw [habf i f, hbaf i f]
    omega
  · intro i f
    rw [habo i f, hbao i f]
    rw [← Multiset.coe_add, ← Multiset.coe_add]
    exact add_comm _ _
  · intro i f
    rw [habcf i f, habf i f, habc2f i f, hbcf i f]
    omega
  · intro i f
    rw [habco i f, habo i f, habc2o i f, hbco i f]
    rw [List.append_assoc]

/-- Witness for C1 at three concrete well-formed grids over one lattice. -/
theorem merge_grids_comm_assoc_witness :
    (WFGrid exGridA ∧ WFGrid exGridB ∧ WFGrid exGridC ∧
        sameLattice exGridA exGridB ∧ sameLattice exGridA exGridC) ∧
      (∃ ab ba abc bc abc2,
        merge_grids exGridA exGridB = some ab ∧ merge_grids exGridB exGridA = some ba ∧
          merge_grids ab exGridC = some abc ∧ merge_grids exGridB exGridC = some bc ∧
            merge_grids exGridA bc = some abc2 ∧
              (∀ i f, ab.freqAt i f = ba.freqAt i f) ∧
                (∀ i f, (ab.originsAt i f : Multiset ℕ) = (ba.originsAt i f : Multiset ℕ)) ∧
                  (∀ i f, abc.freqAt i f = abc2.freqAt i f) ∧
                    (∀ i f,
                      (abc.originsAt i f : Multiset ℕ) = (abc2.originsAt i f : Multiset ℕ))) :=
  ⟨⟨by decide, by decide, by decide, by decide, by decide⟩,
    merge_grids_comm_assoc exGridA exGridB exGridC (by decide) (by decide) (by decide)
      (by decide) (by decide)⟩

/-- C2: `check_voxels` assigns each coordinate the voxel whose center
minimizes the squared Euclidean distance, with exact ties broken towards
the lowest voxel index of the fixed enumeration; the assignment is a
function of the grid and the coordinates, hence deterministic. -/
theorem check_voxels_nearest (g : Grid) (coords : List Point) (inds : List ℕ)
    (h : check_voxels g coords = some inds) :
    inds.length = coords.length ∧
      ∀ i p j, coords.get? i = some p → inds.get? i = some j →
        ∃ vj, g.voxels.get? j = some vj ∧
          ∀ k vk, g.voxels.get? k = some vk →
            sqdist p vj.center ≤ sqdist p vk.center ∧
              (sqdist p vk.center = sqdist p vj.center → j ≤ k) := by
  rw [check_voxels] at h
  by_cases hne : g.voxels.isEmpty
  · rw [if_pos hne] at h
    exact absurd h (by simp)
  · rw [if_neg hne] at h
    obtain rfl := Option.some.inj h
    have hvne : g.voxels ≠ [] := by
      intro hnil
      rw [hnil] at hne
      exact hne rfl
    refine ⟨by simp, ?_⟩
    intro i p j hp hj
    rw [List.get?_map, hp, Option.map_some'] at hj
    obtain rfl := (Option.some.inj hj).symm
    set L := (g.voxels.map Voxel.center).map (fun c => sqdist p c) with hL
    have hLlen : L.length = g.voxels.length := by simp [hL]
    have hLne : L ≠ [] := by
      intro hnil
      apply hvne
      have := congrArg List.length hnil
      rw [hLlen] at this
      exact List.length_eq_zero.mp this
    have hjlt : argminList L < g.voxels.length := hLlen ▸ argminList_lt_length L hLne
    have hvj' : g.voxels.get? (argminList L) ≠ none := by
      rw [Ne, List.get?_eq_none]
      omega
    obtain ⟨vj, hvj⟩ := Option.ne_none_iff_exists'.mp hvj'
    have hgetL : ∀ k vk, g.voxels.get? k = some vk →
        L.get? k = some (sqdist p vk.center) := by
      intro k vk hvk
      rw [hL, List.get?_map, List.get?_map, hvk]
      rfl
    have hLj : L.get? (argminList L) = some (sqdist p vj.center) := hgetL _ vj hvj
    have hmin : sqdist p vj.center = minOf L :=
      Option.some.inj (hLj.symm.trans (argminList_get L hLne))
    refine ⟨vj, hvj, ?_⟩
    intro k vk hvk
    constructor
    · rw [hmin]
      exact minOf_le_get L k _ (hgetL k vk hvk)
    · intro htie
      apply argminList_first
      rw [← hmin, ← htie]
      exact hgetL k vk hvk

/-- Witness for C2: the point `(0,0,1)` ties between the two voxel centers
of `exGridTie` and is assigned voxel index 0. -/
theorem check_voxels_nearest_witness :
    check_voxels exGridTie [(0, 0, 1)] = some [0] ∧
      (([0] : List ℕ).length = ([((0 : ℚ), (0 : ℚ), (1 : ℚ))] : List Point).length ∧
        ∀ i p j, ([((0 : ℚ), (0 : ℚ), (1 : ℚ))] : List Point).get? i = some p →
          (([0] : List ℕ).get? i = some j) →
            ∃ vj, exGridTie.voxels.get? j = some vj ∧
              ∀ k vk, exGridTie.voxels.get? k = some vk →
                sqdist p vj.center ≤ sqdist p vk.center ∧
                  (sqdist p vk.center = sqdist p vj.center → j ≤ k)) :=
  ⟨by norm_num [check_voxels, exGridTie, argminList, minFrom, sqdist],
    check_voxels_nearest exGridTie [(0, 0, 1)] [0]
      (by norm_num [check_voxels, exGridTie, argminList, minFrom, sqdist])⟩

/-- C4: the record written for a voxel with frequency 5 at center (1,2,3)
for feature HBD is the fixed-width line below, and parsing it at the spec's
fixed column offsets (x at 30-38, y at 38-46, z at 46-54, bfactor at 60-66,
0-based, half-open) recovers the coordinates (1.000, 2.000, 3.000) and the
bfactor 5.00. -/
theorem format_line_pdb_roundtrip :
    format_line_pdb (1, 2, 3) "HBD" 5 =
        "ATOM     1 HBD  UNK A   1       1.000   2.000   3.000  1.00  5.00           H\n" ∧
      parseFixed (sliceChars (format_line_pdb (1, 2, 3) "HBD" 5).toList 30 38) = some 1 ∧
        parseFixed (sliceChars (format_line_pdb (1, 2, 3) "HBD" 5).toList 38 46) = some 2 ∧
          parseFixed (sliceChars (format_line_pdb (1, 2, 3) "HBD" 5).toList 46 54) = some 3 ∧
            parseFixed (sliceChars (format_line_pdb (1, 2, 3) "HBD" 5).toList 60 66) = some 5 := by
  have h1 : formatFixed 1 3 = "1.000" := by
    have hr : round ((1 : ℚ) * 10 ^ 3) = 1000 := by norm_num [round_eq]
    rw [formatFixed, hr]; rfl
  have h2 : formatFixed 2 3 = "2.000" := by
    have hr : round ((2 : ℚ) * 10 ^ 3) = 2000 := by norm_num [round_eq]
    rw [formatFixed, hr]; rfl
  have h3 : formatFixed 3 3 = "3.000" := by
    have hr : round ((3 : ℚ) * 10 ^ 3) = 3000 := by norm_num [round_eq]
    rw [formatFixed, hr]; rfl
  have h4 : formatFixed 1 2 = "1.00" := by
    have hr : round ((1 : ℚ) * 10 ^ 2) = 100 := by norm_num [round_eq]
    rw [formatFixed, hr]; rfl
  have h5 : formatFixed 5 2 = "5.00" := by
    have hr : round ((5 : ℚ) * 10 ^ 2) = 500 := by norm_num [round_eq]
    rw [formatFixed, hr]; rfl
  have hline : format_line_pdb (1, 2, 3) "HBD" 5 =
      "ATOM     1 HBD  UNK A   1       1.000   2.000   3.000  1.00  5.00           H\n" := by
    rw [format_line_pdb, h1, h2, h3, h4, h5]
    rfl
  refine ⟨hline, ?_, ?_, ?_, ?_⟩
  · rw [hline]
    show (some (((1 : ℕ) : ℚ) + ((0 : ℕ) : ℚ) / (10 : ℚ) ^ ("000".toList).length) : Option ℚ) =
      some 1
    norm_num
  · rw [hline]
    show (some (((2 : ℕ) : ℚ) + ((0 : ℕ) : ℚ) / (10 : ℚ) ^ ("000".toList).length) : Option ℚ) =
      some 2
    norm_num
  · rw [hline]
    show (some (((3 : ℕ) : ℚ) + ((0 : ℕ) : ℚ) / (10 : ℚ) ^ ("000".toList).length) : Option ℚ) =
      some 3
    norm_num
  · rw [hline]
    show (some (((5 : ℕ) : ℚ) + ((0 : ℕ) : ℚ) / (10 : ℚ) ^ ("00".toList).length) : Option ℚ) =
      some 5
    norm_num

/-- C5: `GridAnalyzer.get_grid_atoms` raises `NameError` on every input
(it reads the undefined names `coordinates` and `a`), so it cannot return
the filtered subset and in particular errors on an empty input instead of
returning an empty set. The twin implementation `Target.get_grid_atoms`
does satisfy the filter contract: it returns exactly the input points
within `sqrt(3) * radius` of the grid center (stated on squared distances)
that also pass the componentwise box test, and maps an empty input to an
empty output. -/
theorem get_grid_atoms_filter :
    (∀ g coords, ga_get_grid_atoms g coords =
        Except.error "NameError: name coordinates is not defined") ∧
      (∀ g, target_get_grid_atoms g [] = []) ∧
        ∀ g atoms p, p ∈ target_get_grid_atoms g atoms ↔
          p ∈ atoms ∧ sqdist p g.center ≤ 3 * g.radius ^ 2 ∧
            pointLE (Grid.v1 g) p ∧ pointLE p (Grid.v8 g) := by
  refine ⟨fun g coords => rfl, fun g => rfl, ?_⟩
  intro g atoms p
  simp only [target_get_grid_atoms, neighbor_search, List.mem_filter, Bool.and_eq_true,
    decide_eq_true_eq, and_assoc]

/-- C9: `analyze_trajectory` cannot return a populated snapshot: with any
accepted step present it fails with the `NameError` raised inside
`get_grid_atoms`, and with no accepted steps it returns the bare deep copy
of the template. -/
theorem analyze_trajectory_bug :
    analyze_trajectory exGridA [[(0, 0, 0)]] [0] =
        Except.error "NameError: name coordinates is not defined" ∧
      analyze_trajectory exGridA [[(0, 0, 0)]] [] = Except.ok exGridA :=
  ⟨rfl, rfl⟩

/-- Counterexample to C6: `exGridA` and `exGridIncompatible` are built from
different parameters (radius 1 versus radius 2), yet `merge_grids` merges
them without raising anything — there is no compatibility check and no
`IncompatibleGridError` anywhere in the code. -/
theorem merge_grids_incompatible_succeeds :
    exGridA.radius ≠ exGridIncompatible.radius ∧
      (merge_grids exGridA exGridIncompatible).isSome = true := by
  constructor
  · decide
  · decide

/-- C6 amended: `merge_grids` performs no parameter check at all; it
succeeds on any pair of grids whenever the incoming grid has at most as
many voxels as the (non-empty) base grid and is well-formed — compatible
or not — and when the base grid is empty it succeeds unconditionally. -/
theorem merge_grids_total_of_le (a b : Grid)
    (hlen : b.voxels.length ≤ a.voxels.length) (hb : WFGrid b) :
    (merge_grids a b).isSome = true := by
  by_cases hem : a.is_empty = true
  · simp [merge_grids, hem]
  · rw [Bool.not_eq_true] at hem
    obtain ⟨vs', hvs', _⟩ :=
      mergeVoxelLists_spec a.voxels b.voxels hlen (fun ov hov => hb ov hov)
    simp [merge_grids, hem, hvs']

/-- Witness for the amended C6 at the concrete incompatible pair. -/
theorem merge_grids_total_of_le_witness :
    (exGridIncompatible.voxels.length ≤ exGridA.voxels.length ∧
        WFGrid exGridIncompatible) ∧
      (merge_grids exGridA exGridIncompatible).isSome = true :=
  ⟨⟨by decide, by decide⟩,
    merge_grids_total_of_le exGridA exGridIncompatible (by decide) (by decide)⟩

/-- Counterexample to C7: bin index 10 lies outside [0,9], yet
`set_frequency_filter` succeeds on it (it is a valid index into the
11-element bin-edge array) and returns the top edge 3.5 for the feature A
of `exGridHist`; no `InvalidThresholdError` exists in the code. -/
theorem set_frequency_filter_bin10_succeeds :
    set_frequency_filter exGridHist 10 = some [("A", (7 : ℚ) / 2)] := by
  norm_num [set_frequency_filter, exGridHist, buildFreqDictAll, list_dict, optionMapAll,
    histEdges, histRange, minFrom, maxFrom, pyIndex, List.range_succ]
  rfl

/-- C7 amended: the bin index is used directly as a Python index into the
11-element `bin_edges` array, so on a grid with at least one recorded
feature the computation succeeds exactly for indices in [-11, 10] and
raises `IndexError` (not a dedicated error) otherwise; no file is involved
in this step either way. -/
theorem set_frequency_filter_isSome_iff (g : Grid) (t : ℤ)
    (h : buildFreqDictAll g.voxels ≠ []) :
    (set_frequency_filter g t).isSome = true ↔ (-11 ≤ t ∧ t ≤ 10) := by
  rw [set_frequency_filter, optionMapAll_isSome]
  have hmap : ∀ p : String × List ℕ,
      ((pyIndex (histEdges p.2) t).map (fun e => (p.1, e))).isSome =
        (pyIndex (histEdges p.2) t).isSome := by
    intro p
    cases pyIndex (histEdges p.2) t <;> rfl
  constructor
  · intro hall
    obtain ⟨p, hp⟩ := List.exists_mem_of_ne_nil _ h
    have hpis := hall p hp
    rw [hmap p, pyIndex_isSome_iff _ _ (histEdges_length p.2)] at hpis
    exact hpis
  · intro hbound p hp
    rw [hmap p, pyIndex_isSome_iff _ _ (histEdges_length p.2)]
    exact hbound

/-- Witness for the amended C7 at a concrete grid and the out-of-range
index 11. -/
theorem set_frequency_filter_isSome_iff_witness :
    buildFreqDictAll exGridHist.voxels ≠ [] ∧
      ((set_frequency_filter exGridHist 11).isSome = true ↔
        (-11 ≤ (11 : ℤ) ∧ (11 : ℤ) ≤ 10)) :=
  ⟨by decide, set_frequency_filter_isSome_iff exGridHist 11 (by decide)⟩

/-- C8: for a feature of the grid, the histogram bin edge for bin k+1 is
at least the edge for bin k, so the number of voxels whose frequency
reaches the cutoff never increases when the bin index increases. -/
theorem threshold_monotone (g : Grid) (f : String) (freqs : List ℕ) (k : ℕ)
    (hf : dictLookup (buildFreqDictAll g.voxels) f = some freqs)
    (hk : k + 1 < 11) (ck ck1 : ℚ)
    (h1 : (histEdges freqs).get? k = some ck)
    (h2 : (histEdges freqs).get? (k + 1) = some ck1) :
    ck ≤ ck1 ∧ countSurvivors g f ck1 ≤ countSurvivors g f ck := by
  have hmono := histEdges_mono freqs k hk ck ck1 h1 h2
  refine ⟨hmono, ?_⟩
  rw [countSurvivors, countSurvivors]
  apply countP_mono_of_imp
  intro v hv hpv
  rcases hn : dictLookup v.freq_dict f with _ | n
  · rw [hn] at hpv
    simp at hpv
  · rw [hn] at hpv
    have hpv' : ck1 ≤ (n : ℚ) := by simpa using hpv
    simpa using le_trans hmono hpv'

/-- Witness for C8 at `exGridHist2` (frequencies 1 and 11, edges 1 + k). -/
theorem threshold_monotone_witness :
    (dictLookup (buildFreqDictAll exGridHist2.voxels) "A" = some [1, 11] ∧
        (0 : ℕ) + 1 < 11 ∧
          (histEdges [1, 11]).get? 0 = some 1 ∧ (histEdges [1, 11]).get? 1 = some 2) ∧
      ((1 : ℚ) ≤ 2 ∧ countSurvivors exGridHist2 "A" 2 ≤ countSurvivors exGridHist2 "A" 1) :=
  ⟨⟨by decide, by norm_num,
      by norm_num [histEdges, histRange, minFrom, maxFrom, List.range_succ],
      by norm_num [histEdges, histRange, minFrom, maxFrom, List.range_succ]⟩,
    threshold_monotone exGridHist2 "A" [1, 11] 0 (by decide) (by norm_num) 1 2
      (by norm_num [histEdges, histRange, minFrom, maxFrom, List.range_succ])
      (by norm_num [histEdges, histRange, minFrom, maxFrom, List.range_succ])⟩

/-- C10: a successful `merge_grids` call never touches the heap cell of its
second argument; when the first grid is non-empty the returned reference is
the first argument itself, updated in place with no new allocation; only
when the first grid is empty is a fresh object (a deep copy of the second
argument, at a previously unused address) returned. -/
theorem merge_grids_heap_frame (h : List Grid) (a b : ℕ) (ga gb : Grid)
    (h' : List Grid) (r : ℕ)
    (hga : h.get? a = some ga) (hgb : h.get? b = some gb) (hne : a ≠ b)
    (hm : merge_grids_heap h a b = some (h', r)) :
    h'.get? b = some gb ∧
      (ga.is_empty = false →
        r = a ∧ h'.length = h.length ∧ ∃ vs, h'.get? a = some { ga with voxels := vs }) ∧
      (ga.is_empty = true →
        r = h.length ∧ h.get? r = none ∧ h'.get? r = some gb) := by
  have halt : a < h.length := by
    by_contra hle
    push_neg at hle
    rw [List.get?_eq_none.mpr hle] at hga
    exact Option.noConfusion hga
  have hblt : b < h.length := by
    by_contra hle
    push_neg at hle
    rw [List.get?_eq_none.mpr hle] at hgb
    exact Option.noConfusion hgb
  rw [merge_grids_heap] at hm
  simp only [hga, hgb] at hm
  by_cases hem : ga.is_empty = true
  · rw [if_pos hem] at hm
    obtain ⟨hh, hr⟩ := Prod.mk.inj (Option.some.inj hm)
    subst hh
    subst hr
    refine ⟨(List.get?_append hblt).trans hgb, ?_, ?_⟩
    · intro hfalse
      rw [hem] at hfalse
      exact Bool.noConfusion hfalse
    · intro _
      exact ⟨rfl, List.get?_eq_none.mpr (le_refl _), List.get?_concat_length h gb⟩
  · rw [if_neg hem] at hm
    rcases hvs : mergeVoxelLists ga.voxels gb.voxels with _ | vs
    · rw [hvs] at hm
      exact Option.noConfusion hm
    · rw [hvs] at hm
      obtain ⟨hh, hr⟩ := Prod.mk.inj (Option.some.inj hm)
      subst hh
      subst hr
      rw [Bool.not_eq_true] at hem
      refine ⟨?_, ?_, ?_⟩
      · rw [List.get?_set_ne _ _ hne]
        exact hgb
      · intro _
        exact ⟨rfl, List.length_set h a _,
          ⟨vs, List.get?_set_eq_of_lt _ halt⟩⟩
      · intro htrue
        rw [hem] at htrue
        exact Bool.noConfusion htrue

/-- Witness for C10 on a concrete two-cell heap with a non-empty first
grid. -/
theorem merge_grids_heap_frame_witness :
    ([exGridA, exGridC].get? 0 = some exGridA ∧ [exGridA, exGridC].get? 1 = some exGridC ∧
        (0 : ℕ) ≠ 1 ∧
          merge_grids_heap [exGridA, exGridC] 0 1 =
            some ([⟨(0, 0, 0), 1, 1,
                [⟨(0, 0, 0), [("A", 1), ("B", 1)], [("A", [1]), ("B", [5])]⟩]⟩,
              exGridC], 0)) ∧
      (([⟨(0, 0, 0), 1, 1,
            [⟨(0, 0, 0), [("A", 1), ("B", 1)], [("A", [1]), ("B", [5])]⟩]⟩,
          exGridC] : List Grid).get? 1 = some exGridC ∧
        (exGridA.is_empty = false →
          (0 : ℕ) = 0 ∧
            ([⟨(0, 0, 0), 1, 1,
                [⟨(0, 0, 0), [("A", 1), ("B", 1)], [("A", [1]), ("B", [5])]⟩]⟩,
              exGridC] : List Grid).length = ([exGridA, exGridC] : List Grid).length ∧
              ∃ vs, ([⟨(0, 0, 0), 1, 1,
                  [⟨(0, 0, 0), [("A", 1), ("B", 1)], [("A", [1]), ("B", [5])]⟩]⟩,
                exGridC] : List Grid).get? 0 = some { exGridA with voxels := vs }) ∧
        (exGridA.is_empty = true →
          (0 : ℕ) = ([exGridA, exGridC] : List Grid).length ∧
            ([exGridA, exGridC] : List Grid).get? 0 = none ∧
              ([⟨(0, 0, 0), 1, 1,
                  [⟨(0, 0, 0), [("A", 1), ("B", 1)], [("A", [1]), ("B", [5])]⟩]⟩,
                exGridC] : List Grid).get? 0 = some exGridC)) :=
  ⟨⟨by decide, by decide, by decide, by decide⟩,
    merge_grids_heap_frame [exGridA, exGridC] 0 1 exGridA exGridC _ 0
      (by decide) (by decide) (by decide) (by decide)⟩
